import Mathlib

/-!
Verification of the POSIX interval-timer repository's specification against
its source.  The spec-text format handling is embedded from
`src/itimerspec_from_str.c`; the timer registry, overrun accounting and
notification delivery (which live in the OS / are only called from src/) are
modelled from the spec where a claim needs them.
-/

set_option maxRecDepth 4000

namespace Itimer

/-! ## Embedding of `itimerspec_from_str.c`

`itimerspecFromStr` works on a mutable C string.  We embed strings as
`List Char`; a `Char` equal to `nul` stands for the written terminator
bytes when we model the in-place mutation.
-/

/-- `isspace` for the default C locale, as used by `atoi`. -/
def isSpaceC (c : Char) : Bool :=
  c = ' ' || c = '\t' || c = '\n' || c = '\x0b' || c = '\x0c' || c = '\x0d'

/-- ASCII decimal digit test. -/
def isDigitC (c : Char) : Bool :=
  '0' ≤ c && c ≤ '9'

/-- The digit-consuming loop of `atoi`: accumulates decimal digits, stopping
at the first non-digit character.  C `int` overflow is undefined behaviour,
so the model uses mathematical integers. -/
def atoiDigits (acc : Int) : List Char → Int
  | [] => acc
  | c :: cs =>
      if isDigitC c then atoiDigits (10 * acc + (Int.ofNat c.toNat - 48)) cs
      else acc

/-- C `atoi`: skip leading whitespace, take an optional sign, then read
decimal digits up to the first non-digit; with no digits the result is 0. -/
def atoi (s : List Char) : Int :=
  match s.dropWhile isSpaceC with
  | [] => 0
  | c :: rest =>
      if c = '-' then - atoiDigits 0 rest
      else if c = '+' then atoiDigits 0 rest
      else atoiDigits 0 (c :: rest)

/-- Model of `strchr` followed by writing a terminator: splits `s` at the
first occurrence of `sep`.  Returns the text before the first `sep` and,
when `sep` occurs, the text after it. -/
def splitAtFirst (sep : Char) : List Char → List Char × Option (List Char)
  | [] => ([], none)
  | c :: cs =>
      if c = sep then ([], some cs)
      else
        let p := splitAtFirst sep cs
        (c :: p.1, p.2)

/-- C `struct timespec` as filled by the repository's code: both fields are
signed integral types (`time_t` / `long`). -/
structure timespec where
  tv_sec : Int
  tv_nsec : Int
deriving DecidableEq, Repr

/-- C `struct itimerspec`. -/
structure itimerspec where
  it_value : timespec
  it_interval : timespec
deriving DecidableEq, Repr

/-- Embedding of `itimerspecFromStr` (src/itimerspec_from_str.c): split at
the first `:` into value part and optional interval part, split each part at
its first `/` into seconds and optional nanoseconds, and convert every token
with `atoi`; absent tokens give 0. -/
def itimerspecFromStr (str : List Char) : itimerspec :=
  let c := splitAtFirst ':' str
  let s := splitAtFirst '/' c.1
  let it_value : timespec :=
    ⟨atoi s.1, match s.2 with | some n => atoi n | none => 0⟩
  let it_interval : timespec :=
    match c.2 with
    | none => ⟨0, 0⟩
    | some ipart =>
        let s2 := splitAtFirst '/' ipart
        ⟨atoi s2.1, match s2.2 with | some n => atoi n | none => 0⟩
  ⟨it_value, it_interval⟩

/-- The NUL byte that `itimerspecFromStr` writes over each separator it
locates. -/
def nul : Char := '\x00'

/-- One part (value or interval) of the buffer after the call: the first
`/` in it, if any, has been overwritten with `nul`. -/
def partAfter (p : List Char) : List Char :=
  match (splitAtFirst '/' p).2 with
  | none => (splitAtFirst '/' p).1
  | some t => (splitAtFirst '/' p).1 ++ nul :: t

/-- The contents of the caller's buffer after `itimerspecFromStr` returns:
the first `:` (if any), the first `/` before it (if any) and the first `/`
after it (if any) have been overwritten with `nul`; every other byte is
untouched. -/
def bufferAfter (str : List Char) : List Char :=
  let c := splitAtFirst ':' str
  match c.2 with
  | none => partAfter c.1
  | some ipart => partAfter c.1 ++ nul :: partAfter ipart

/-- The decimal value denoted by a digit string, independent of `atoi`:
the spec-side meaning of an ASCII decimal integer token. -/
def decValue (s : List Char) : Int :=
  s.foldl (fun a c => 10 * a + (Int.ofNat c.toNat - 48)) 0

/-- Whether a token starts with a digit once leading whitespace and an
optional sign are skipped; exactly when it does not, `atoi` finds no digit
to consume and yields 0. -/
def hasLeadingDigit (s : List Char) : Bool :=
  match s.dropWhile isSpaceC with
  | [] => false
  | c :: rest =>
      if c = '-' then (match rest with | [] => false | d :: _ => isDigitC d)
      else if c = '+' then (match rest with | [] => false | d :: _ => isDigitC d)
      else isDigitC c

/-! ## Lemmas about `splitAtFirst` and `atoi` -/

theorem splitAtFirst_not_mem (sep : Char) (s : List Char) (h : sep ∉ s) :
    splitAtFirst sep s = (s, none) := by
  induction s with
  | nil => rfl
  | cons c cs ih =>
      have hc : ¬ c = sep := fun he => h (he ▸ List.mem_cons_self c cs)
      have hcs : sep ∉ cs := fun hm => h (List.mem_cons_of_mem c hm)
      simp [splitAtFirst, hc, ih hcs]

theorem splitAtFirst_append (sep : Char) (a b : List Char) (h : sep ∉ a) :
    splitAtFirst sep (a ++ sep :: b) = (a, some b) := by
  induction a with
  | nil => simp [splitAtFirst]
  | cons c cs ih =>
      have hc : ¬ c = sep := fun he => h (he ▸ List.mem_cons_self c cs)
      have hcs : sep ∉ cs := fun hm => h (List.mem_cons_of_mem c hm)
      simp [splitAtFirst, hc, ih hcs]

theorem mem_of_splitAtFirst_fst (sep x : Char) (s : List Char)
    (h : x ∈ (splitAtFirst sep s).1) : x ∈ s := by
  induction s with
  | nil => simp [splitAtFirst] at h
  | cons c cs ih =>
      by_cases hc : c = sep
      · simp [splitAtFirst, hc] at h
      · simp only [splitAtFirst, if_neg hc] at h
        rcases List.mem_cons.mp h with h1 | h2
        · exact h1 ▸ List.mem_cons_self c cs
        · exact List.mem_cons_of_mem c (ih h2)

theorem mem_of_splitAtFirst_snd (sep x : Char) (s b : List Char)
    (hb : (splitAtFirst sep s).2 = some b) (h : x ∈ b) : x ∈ s := by
  induction s with
  | nil => simp [splitAtFirst] at hb
  | cons c cs ih =>
      by_cases hc : c = sep
      · simp only [splitAtFirst, if_pos hc] at hb
        cases hb
        exact List.mem_cons_of_mem c h
      · simp only [splitAtFirst, if_neg hc] at hb
        exact List.mem_cons_of_mem c (ih hb)

theorem eq_of_splitAtFirst_none (sep : Char) (s : List Char)
    (h : (splitAtFirst sep s).2 = none) : (splitAtFirst sep s).1 = s := by
  induction s with
  | nil => rfl
  | cons c cs ih =>
      by_cases hc : c = sep
      · simp [splitAtFirst, hc] at h
      · simp only [splitAtFirst, if_neg hc] at h ⊢
        rw [ih h]

theorem eq_of_splitAtFirst_some (sep : Char) (s b : List Char)
    (h : (splitAtFirst sep s).2 = some b) :
    s = (splitAtFirst sep s).1 ++ sep :: b := by
  induction s with
  | nil => simp [splitAtFirst] at h
  | cons c cs ih =>
      by_cases hc : c = sep
      · simp only [splitAtFirst, if_pos hc] at h ⊢
        cases h
        simp [hc]
      · simp only [splitAtFirst, if_neg hc] at h ⊢
        exact congrArg (c :: ·) (ih h)

theorem isSpaceC_eq_false_of_digit (c : Char) (h : isDigitC c = true) :
    isSpaceC c = false := by
  cases hs : isSpaceC c with
  | false => rfl
  | true =>
      simp only [isSpaceC, Bool.or_eq_true, decide_eq_true_eq] at hs
      rcases hs with ((((h1 | h1) | h1) | h1) | h1) | h1 <;> subst h1 <;>
        simp [isDigitC] at h

theorem ne_of_digit (c x : Char) (h : isDigitC c = true) (hx : isDigitC x = false) :
    c ≠ x := by
  intro he
  subst he
  rw [h] at hx
  exact Bool.noConfusion hx

theorem not_mem_of_allDigits (x : Char) (s : List Char)
    (h : ∀ c ∈ s, isDigitC c = true) (hx : isDigitC x = false) : x ∉ s := by
  intro hm
  have := h x hm
  rw [this] at hx
  exact Bool.noConfusion hx

theorem atoiDigits_foldl (s : List Char) (acc : Int)
    (h : ∀ c ∈ s, isDigitC c = true) :
    atoiDigits acc s = s.foldl (fun a c => 10 * a + (Int.ofNat c.toNat - 48)) acc := by
  induction s generalizing acc with
  | nil => rfl
  | cons c cs ih =>
      have hc : isDigitC c = true := h c (List.mem_cons_self c cs)
      have hcs : ∀ x ∈ cs, isDigitC x = true := fun x hm => h x (List.mem_cons_of_mem c hm)
      simp only [atoiDigits, if_pos hc, List.foldl_cons]
      exact ih _ hcs

/-- On a pure digit string, `atoi` computes exactly its decimal value. -/
theorem atoi_allDigits (s : List Char) (h : ∀ c ∈ s, isDigitC c = true) :
    atoi s = decValue s := by
  cases s with
  | nil => rfl
  | cons c cs =>
      have hc : isDigitC c = true := h c (List.mem_cons_self c cs)
      have hsp : isSpaceC c = false := isSpaceC_eq_false_of_digit c hc
      have hminus : ¬ c = '-' := ne_of_digit c '-' hc (by decide)
      have hplus : ¬ c = '+' := ne_of_digit c '+' hc (by decide)
      simp only [atoi, List.dropWhile_cons, hsp, Bool.false_eq_true, if_false,
        if_neg hminus, if_neg hplus]
      exact atoiDigits_foldl _ _ h

theorem atoiDigits_head_not_digit (s : List Char) (acc : Int)
    (h : match s with | [] => True | c :: _ => isDigitC c = false) :
    atoiDigits acc s = acc := by
  cases s with
  | nil => rfl
  | cons c cs => simp only [atoiDigits, h, Bool.false_eq_true, if_false]

/-- On a string containing no digit at all, `atoi` yields 0. -/
theorem atoi_no_digit (s : List Char) (h : ∀ c ∈ s, isDigitC c = false) :
    atoi s = 0 := by
  have hsub : ∀ c ∈ s.dropWhile isSpaceC, isDigitC c = false := by
    intro c hm
    exact h c ((s.dropWhile_sublist isSpaceC).mem hm)
  cases hd : s.dropWhile isSpaceC with
  | nil => simp [atoi, hd]
  | cons c cs =>
      have hcs : ∀ x ∈ cs, isDigitC x = false := by
        intro x hm
        exact hsub x (hd ▸ List.mem_cons_of_mem c hm)
      have hczero : atoiDigits 0 cs = 0 := by
        cases cs with
        | nil => rfl
        | cons d ds =>
            exact atoiDigits_head_not_digit _ _ (hcs d (List.mem_cons_self d ds))
      have hcfalse : isDigitC c = false := hsub c (hd ▸ List.mem_cons_self c cs)
      by_cases hm : c = '-'
      · simp [atoi, hd, hm, hczero]
      · by_cases hp : c = '+'
        · simp [atoi, hd, hm, hp, hczero]
        · simp only [atoi, hd, if_neg hm, if_neg hp]
          exact atoiDigits_head_not_digit _ _ hcfalse

/-- On a token with no leading digit after whitespace and optional sign,
`atoi` yields 0. -/
theorem atoi_eq_zero_of_no_leading (t : List Char)
    (h : hasLeadingDigit t = false) : atoi t = 0 := by
  unfold hasLeadingDigit at h
  cases hd : t.dropWhile isSpaceC with
  | nil => simp [atoi, hd]
  | cons c rest =>
      rw [hd] at h
      by_cases hm : c = '-'
      · simp only [if_pos hm] at h
        have hz : atoiDigits 0 rest = 0 := by
          cases rest with
          | nil => rfl
          | cons d ds => exact atoiDigits_head_not_digit _ _ h
        simp [atoi, hd, hm, hz]
      · by_cases hp : c = '+'
        · simp only [if_neg hm, if_pos hp] at h
          have hz : atoiDigits 0 rest = 0 := by
            cases rest with
            | nil => rfl
            | cons d ds => exact atoiDigits_head_not_digit _ _ h
          simp [atoi, hd, hm, hp, hz]
        · simp only [if_neg hm, if_neg hp] at h
          simp only [atoi, hd, if_neg hm, if_neg hp]
          exact atoiDigits_head_not_digit _ _ h

theorem not_mem_append_cons (x y : Char) (a b : List Char)
    (ha : x ∉ a) (hxy : x ≠ y) (hb : x ∉ b) : x ∉ a ++ y :: b := by
  intro hm
  rcases List.mem_append.mp hm with h1 | h1
  · exact ha h1
  · rcases List.mem_cons.mp h1 with h2 | h2
    · exact hxy h2
    · exact hb h2

/-! ## Shape lemmas for `itimerspecFromStr` on well-formed spec text -/

theorem parse_shape_sec (s : List Char) (hs : ∀ c ∈ s, isDigitC c = true) :
    itimerspecFromStr s = ⟨⟨decValue s, 0⟩, ⟨0, 0⟩⟩ := by
  have h1 : (':' : Char) ∉ s := not_mem_of_allDigits ':' s hs (by decide)
  have h2 : ('/' : Char) ∉ s := not_mem_of_allDigits '/' s hs (by decide)
  simp only [itimerspecFromStr, splitAtFirst_not_mem ':' s h1,
    splitAtFirst_not_mem '/' s h2, atoi_allDigits s hs]

theorem parse_shape_sec_nsec (s n : List Char)
    (hs : ∀ c ∈ s, isDigitC c = true) (hn : ∀ c ∈ n, isDigitC c = true) :
    itimerspecFromStr (s ++ '/' :: n) = ⟨⟨decValue s, decValue n⟩, ⟨0, 0⟩⟩ := by
  have h1 : (':' : Char) ∉ s ++ '/' :: n :=
    not_mem_append_cons ':' '/' s n (not_mem_of_allDigits ':' s hs (by decide))
      (by decide) (not_mem_of_allDigits ':' n hn (by decide))
  have h2 : ('/' : Char) ∉ s := not_mem_of_allDigits '/' s hs (by decide)
  simp only [itimerspecFromStr, splitAtFirst_not_mem ':' _ h1,
    splitAtFirst_append '/' s n h2, atoi_allDigits s hs, atoi_allDigits n hn]

theorem parse_shape_sec_int (s i : List Char)
    (hs : ∀ c ∈ s, isDigitC c = true) (hi : ∀ c ∈ i, isDigitC c = true) :
    itimerspecFromStr (s ++ ':' :: i) = ⟨⟨decValue s, 0⟩, ⟨decValue i, 0⟩⟩ := by
  have h1 : (':' : Char) ∉ s := not_mem_of_allDigits ':' s hs (by decide)
  have h2 : ('/' : Char) ∉ s := not_mem_of_allDigits '/' s hs (by decide)
  have h3 : ('/' : Char) ∉ i := not_mem_of_allDigits '/' i hi (by decide)
  simp only [itimerspecFromStr, splitAtFirst_append ':' s i h1,
    splitAtFirst_not_mem '/' s h2, splitAtFirst_not_mem '/' i h3,
    atoi_allDigits s hs, atoi_allDigits i hi]

theorem parse_shape_sec_int_nsec (s i j : List Char)
    (hs : ∀ c ∈ s, isDigitC c = true) (hi : ∀ c ∈ i, isDigitC c = true)
    (hj : ∀ c ∈ j, isDigitC c = true) :
    itimerspecFromStr (s ++ ':' :: (i ++ '/' :: j)) =
      ⟨⟨decValue s, 0⟩, ⟨decValue i, decValue j⟩⟩ := by
  have h1 : (':' : Char) ∉ s := not_mem_of_allDigits ':' s hs (by decide)
  have h2 : ('/' : Char) ∉ s := not_mem_of_allDigits '/' s hs (by decide)
  have h3 : ('/' : Char) ∉ i := not_mem_of_allDigits '/' i hi (by decide)
  simp only [itimerspecFromStr, splitAtFirst_append ':' s _ h1,
    splitAtFirst_not_mem '/' s h2, splitAtFirst_append '/' i j h3,
    atoi_allDigits s hs, atoi_allDigits i hi, atoi_allDigits j hj]

theorem parse_shape_full (s n i j : List Char)
    (hs : ∀ c ∈ s, isDigitC c = true) (hn : ∀ c ∈ n, isDigitC c = true)
    (hi : ∀ c ∈ i, isDigitC c = true) (hj : ∀ c ∈ j, isDigitC c = true) :
    itimerspecFromStr ((s ++ '/' :: n) ++ ':' :: (i ++ '/' :: j)) =
      ⟨⟨decValue s, decValue n⟩, ⟨decValue i, decValue j⟩⟩ := by
  have h1 : (':' : Char) ∉ s ++ '/' :: n :=
    not_mem_append_cons ':' '/' s n (not_mem_of_allDigits ':' s hs (by decide))
      (by decide) (not_mem_of_allDigits ':' n hn (by decide))
  have h2 : ('/' : Char) ∉ s := not_mem_of_allDigits '/' s hs (by decide)
  have h3 : ('/' : Char) ∉ i := not_mem_of_allDigits '/' i hi (by decide)
  simp only [itimerspecFromStr, splitAtFirst_append ':' _ _ h1,
    splitAtFirst_append '/' s n h2, splitAtFirst_append '/' i j h3,
    atoi_allDigits s hs, atoi_allDigits n hn, atoi_allDigits i hi,
    atoi_allDigits j hj]

/-! ## Lemmas about the buffer mutation -/

theorem partAfter_length (p : List Char) : (partAfter p).length = p.length := by
  unfold partAfter
  cases h : (splitAtFirst '/' p).2 with
  | none => rw [eq_of_splitAtFirst_none '/' p h]
  | some t =>
      have hp := eq_of_splitAtFirst_some '/' p t h
      conv_rhs => rw [hp]
      simp

theorem partAfter_no_slash (p : List Char) (h : ('/' : Char) ∉ p) :
    partAfter p = p := by
  unfold partAfter
  rw [splitAtFirst_not_mem '/' p h]

theorem bufferAfter_length (s : List Char) :
    (bufferAfter s).length = s.length := by
  simp only [bufferAfter]
  cases h : (splitAtFirst ':' s).2 with
  | none =>
      simp only [h]
      rw [partAfter_length, eq_of_splitAtFirst_none ':' s h]
  | some ipart =>
      simp only [h]
      have hp := eq_of_splitAtFirst_some ':' s ipart h
      conv_rhs => rw [hp]
      simp [partAfter_length]

theorem bufferAfter_no_sep (s : List Char) (h1 : (':' : Char) ∉ s)
    (h2 : ('/' : Char) ∉ s) : bufferAfter s = s := by
  simp only [bufferAfter, splitAtFirst_not_mem ':' s h1]
  exact partAfter_no_slash s h2

/-! ## Claim theorems about the Spec Parser -/

/-- C1: for all digit strings S, N, I, J, parsing "S/N:I/J" yields
initial delay (S, N) and interval (I, J); inputs missing the optional
nanoseconds of either part or the whole interval part leave the
corresponding fields 0; in particular parse "5/500000000:2/100000000"
gives ((5, 500000000), (2, 100000000)) and parse "5" gives
((5, 0), (0, 0)). -/
theorem C1_parse_wellformed (s n i j : List Char)
    (hs : ∀ c ∈ s, isDigitC c = true) (hn : ∀ c ∈ n, isDigitC c = true)
    (hi : ∀ c ∈ i, isDigitC c = true) (hj : ∀ c ∈ j, isDigitC c = true) :
    itimerspecFromStr ((s ++ '/' :: n) ++ ':' :: (i ++ '/' :: j)) =
      ⟨⟨decValue s, decValue n⟩, ⟨decValue i, decValue j⟩⟩ ∧
    itimerspecFromStr s = ⟨⟨decValue s, 0⟩, ⟨0, 0⟩⟩ ∧
    itimerspecFromStr (s ++ '/' :: n) = ⟨⟨decValue s, decValue n⟩, ⟨0, 0⟩⟩ ∧
    itimerspecFromStr (s ++ ':' :: i) = ⟨⟨decValue s, 0⟩, ⟨decValue i, 0⟩⟩ ∧
    itimerspecFromStr (s ++ ':' :: (i ++ '/' :: j)) =
      ⟨⟨decValue s, 0⟩, ⟨decValue i, decValue j⟩⟩ ∧
    itimerspecFromStr ("5/500000000:2/100000000".data) =
      ⟨⟨5, 500000000⟩, ⟨2, 100000000⟩⟩ ∧
    itimerspecFromStr ("5".data) = ⟨⟨5, 0⟩, ⟨0, 0⟩⟩ :=
  ⟨parse_shape_full s n i j hs hn hi hj, parse_shape_sec s hs,
   parse_shape_sec_nsec s n hs hn, parse_shape_sec_int s i hs hi,
   parse_shape_sec_int_nsec s i j hs hi hj, by decide, by decide⟩

/-- Witness for C1 at S=5, N=500000000, I=2, J=100000000. -/
theorem C1_parse_wellformed_witness :
    (∀ c ∈ "5".data, isDigitC c = true) ∧
    itimerspecFromStr (("5".data ++ '/' :: "500000000".data) ++
        ':' :: ("2".data ++ '/' :: "100000000".data)) =
      ⟨⟨decValue "5".data, decValue "500000000".data⟩,
       ⟨decValue "2".data, decValue "100000000".data⟩⟩ :=
  ⟨by decide,
   (C1_parse_wellformed "5".data "500000000".data "2".data "100000000".data
      (by decide) (by decide) (by decide) (by decide)).1⟩

/-- C9: the search for the initial-delay slash separator is confined to
the text before the first colon: the initial-delay fields of parsing
`a ++ ":" ++ b` (with no colon in `a`) agree with those of parsing `a`
alone, and parse "5:2/7" gives ((5, 0), (2, 7)). -/
theorem C9_slash_confined (a b : List Char) (ha : (':' : Char) ∉ a) :
    (itimerspecFromStr (a ++ ':' :: b)).it_value =
      (itimerspecFromStr a).it_value ∧
    itimerspecFromStr ("5:2/7".data) = ⟨⟨5, 0⟩, ⟨2, 7⟩⟩ := by
  constructor
  · simp only [itimerspecFromStr, splitAtFirst_append ':' a b ha,
      splitAtFirst_not_mem ':' a ha]
  · decide

/-- Witness for C9 at a = "5", b = "2/7". -/
theorem C9_slash_confined_witness :
    ((':' : Char) ∉ "5".data) ∧
    (itimerspecFromStr ("5".data ++ ':' :: "2/7".data)).it_value =
      (itimerspecFromStr "5".data).it_value :=
  ⟨by decide, (C9_slash_confined "5".data "2/7".data (by decide)).1⟩

/-- C10: parse applies no sign or range checking, so the input whose
seconds token is -5 and whose nanoseconds token is -1 yields negative
seconds and nanoseconds fields. -/
theorem C10_negative_fields :
    itimerspecFromStr ("-5/-1".data) = ⟨⟨-5, -1⟩, ⟨0, 0⟩⟩ ∧
    (itimerspecFromStr ("-5/-1".data)).it_value.tv_sec < 0 ∧
    (itimerspecFromStr ("-5/-1".data)).it_value.tv_nsec < 0 := by
  refine ⟨by decide, ?_, ?_⟩ <;> decide

/-- An input containing no digit at all parses to all-zero fields. -/
theorem parse_no_digit_zero (s : List Char) (h : ∀ c ∈ s, isDigitC c = false) :
    itimerspecFromStr s = ⟨⟨0, 0⟩, ⟨0, 0⟩⟩ := by
  have hval : ∀ c ∈ (splitAtFirst ':' s).1, isDigitC c = false :=
    fun c hm => h c (mem_of_splitAtFirst_fst ':' c s hm)
  have hsec : atoi (splitAtFirst '/' (splitAtFirst ':' s).1).1 = 0 :=
    atoi_no_digit _ (fun c hm => hval c (mem_of_splitAtFirst_fst '/' c _ hm))
  simp only [itimerspecFromStr, hsec]
  cases hv : (splitAtFirst '/' (splitAtFirst ':' s).1).2 with
  | none =>
      simp only [hv]
      cases hcc : (splitAtFirst ':' s).2 with
      | none => simp [hcc]
      | some ipart =>
          have hip : ∀ c ∈ ipart, isDigitC c = false :=
            fun c hm => h c (mem_of_splitAtFirst_snd ':' c s ipart hcc hm)
          have hisec : atoi (splitAtFirst '/' ipart).1 = 0 :=
            atoi_no_digit _
              (fun c hm => hip c (mem_of_splitAtFirst_fst '/' c ipart hm))
          cases hiv : (splitAtFirst '/' ipart).2 with
          | none => simp [hcc, hiv, hisec]
          | some t =>
              have hit : atoi t = 0 :=
                atoi_no_digit _
                  (fun c hm => hip c (mem_of_splitAtFirst_snd '/' c ipart t hiv hm))
              simp [hcc, hiv, hisec, hit]
  | some nt =>
      have hnt : atoi nt = 0 :=
        atoi_no_digit _
          (fun c hm => hval c (mem_of_splitAtFirst_snd '/' c _ nt hv hm))
      simp only [hv, hnt]
      cases hcc : (splitAtFirst ':' s).2 with
      | none => simp [hcc]
      | some ipart =>
          have hip : ∀ c ∈ ipart, isDigitC c = false :=
            fun c hm => h c (mem_of_splitAtFirst_snd ':' c s ipart hcc hm)
          have hisec : atoi (splitAtFirst '/' ipart).1 = 0 :=
            atoi_no_digit _
              (fun c hm => hip c (mem_of_splitAtFirst_fst '/' c ipart hm))
          cases hiv : (splitAtFirst '/' ipart).2 with
          | none => simp [hcc, hiv, hisec]
          | some t =>
              have hit : atoi t = 0 :=
                atoi_no_digit _
                  (fun c hm => hip c (mem_of_splitAtFirst_snd '/' c ipart t hiv hm))
              simp [hcc, hiv, hisec, hit]

/-- C7 counterexample: the token "12x" is not a valid integer, yet the
parser stores 12 — the digit-prefix value — in the seconds field, not 0. -/
theorem C7_counterexample :
    (itimerspecFromStr ("12x".data)).it_value.tv_sec = 12 ∧
    ¬ (itimerspecFromStr ("12x".data)).it_value.tv_sec = 0 := by
  refine ⟨by decide, by decide⟩

/-- C7 amended: parse never fails; a numeric token with no leading digit
after optional whitespace and sign yields 0 in its field — in particular
an input whose initial-seconds token is invalid still parses with seconds
0, and an input containing no digit at all parses to all-zero fields —
while a token with trailing garbage after digits yields its digit-prefix
value rather than 0. -/
theorem C7_degrades_leniently (t a b s : List Char)
    (ht : hasLeadingDigit t = false)
    (ha1 : (':' : Char) ∉ a) (ha2 : ('/' : Char) ∉ a)
    (ha3 : hasLeadingDigit a = false)
    (hs : ∀ c ∈ s, isDigitC c = false) :
    atoi t = 0 ∧
    (itimerspecFromStr (a ++ ':' :: b)).it_value.tv_sec = 0 ∧
    itimerspecFromStr s = ⟨⟨0, 0⟩, ⟨0, 0⟩⟩ := by
  refine ⟨atoi_eq_zero_of_no_leading t ht, ?_, parse_no_digit_zero s hs⟩
  simp [itimerspecFromStr, splitAtFirst_append ':' a b ha1,
    splitAtFirst_not_mem '/' a ha2, atoi_eq_zero_of_no_leading a ha3]

/-- Witness for the amended C7 at token "xyz", mixed input "abc:5" and
fully digit-free input "abc/xyz:foo/bar". -/
theorem C7_degrades_leniently_witness :
    (hasLeadingDigit ("xyz".data) = false) ∧
    ((':' : Char) ∉ "abc".data) ∧ (('/' : Char) ∉ "abc".data) ∧
    (hasLeadingDigit ("abc".data) = false) ∧
    (∀ c ∈ "abc/xyz:foo/bar".data, isDigitC c = false) ∧
    (atoi ("xyz".data) = 0 ∧
     (itimerspecFromStr ("abc".data ++ ':' :: "5".data)).it_value.tv_sec = 0 ∧
     itimerspecFromStr ("abc/xyz:foo/bar".data) = ⟨⟨0, 0⟩, ⟨0, 0⟩⟩) :=
  ⟨by decide, by decide, by decide, by decide, by decide,
   C7_degrades_leniently ("xyz".data) ("abc".data) ("5".data)
     ("abc/xyz:foo/bar".data) (by decide) (by decide) (by decide)
     (by decide) (by decide)⟩

/-- C5 counterexample: on input "0/1500000000" the parser stores
1500000000 in the nanoseconds field, which is not < 1000000000: no
normalization into seconds happens. -/
theorem C5_counterexample :
    (itimerspecFromStr ("0/1500000000".data)).it_value.tv_nsec
        = 1500000000 ∧
    ¬ (itimerspecFromStr ("0/1500000000".data)).it_value.tv_nsec
        < 1000000000 := by
  refine ⟨by decide, ?_⟩
  decide

/-- C5 amended: the parser performs no normalization at all; every
nanoseconds field present in the input — the initial delay's and the
interval's alike, with or without an interval part — is exactly the
`atoi` value of its token, so it is below 1000000000 exactly when the
token's value is. -/
theorem C5_nsec_stored_as_parsed (a b i j : List Char)
    (ha1 : ('/' : Char) ∉ a) (ha2 : (':' : Char) ∉ a)
    (hb : (':' : Char) ∉ b) (hi : ('/' : Char) ∉ i) :
    (itimerspecFromStr ((a ++ '/' :: b) ++ ':' :: (i ++ '/' :: j))).it_value.tv_nsec
      = atoi b ∧
    (itimerspecFromStr ((a ++ '/' :: b) ++ ':' :: (i ++ '/' :: j))).it_interval.tv_nsec
      = atoi j ∧
    (itimerspecFromStr (a ++ '/' :: b)).it_value.tv_nsec = atoi b := by
  have hno : (':' : Char) ∉ a ++ '/' :: b :=
    not_mem_append_cons ':' '/' a b ha2 (by decide) hb
  refine ⟨?_, ?_, ?_⟩
  · simp only [itimerspecFromStr, splitAtFirst_append ':' _ _ hno,
      splitAtFirst_append '/' a b ha1]
  · simp only [itimerspecFromStr, splitAtFirst_append ':' _ _ hno,
      splitAtFirst_append '/' i j hi]
  · simp only [itimerspecFromStr, splitAtFirst_not_mem ':' _ hno,
      splitAtFirst_append '/' a b ha1]

/-- Witness for the amended C5 at "0/1500000000:2/2000000000" and
"0/1500000000": both nanoseconds tokens exceed 1e9 and are stored
as parsed. -/
theorem C5_nsec_stored_as_parsed_witness :
    (('/' : Char) ∉ "0".data) ∧ ((':' : Char) ∉ "0".data) ∧
    ((':' : Char) ∉ "1500000000".data) ∧ (('/' : Char) ∉ "2".data) ∧
    ((itimerspecFromStr (("0".data ++ '/' :: "1500000000".data) ++
        ':' :: ("2".data ++ '/' :: "2000000000".data))).it_value.tv_nsec
      = atoi "1500000000".data ∧
     (itimerspecFromStr (("0".data ++ '/' :: "1500000000".data) ++
        ':' :: ("2".data ++ '/' :: "2000000000".data))).it_interval.tv_nsec
      = atoi "2000000000".data ∧
     (itimerspecFromStr ("0".data ++ '/' :: "1500000000".data)).it_value.tv_nsec
      = atoi "1500000000".data) :=
  ⟨by decide, by decide, by decide, by decide,
   C5_nsec_stored_as_parsed "0".data "1500000000".data "2".data
     "2000000000".data (by decide) (by decide) (by decide) (by decide)⟩

/-- C6 counterexample: the call mutates its input text in place; on the
buffer holding "1:2" the separator byte is overwritten, so the buffer
contents after the call differ from the original text. -/
theorem C6_counterexample : bufferAfter ("1:2".data) ≠ "1:2".data := by
  decide

/-- C6 amended: the parse result is a pure function of the input and the
function is total, but the input buffer is mutated in place: its length is
preserved (separators are overwritten, nothing inserted or removed), and
for input text containing no separator at all the buffer is left
unchanged. -/
theorem C6_mutation_bounded (s : List Char) :
    (bufferAfter s).length = s.length ∧
    ((':' : Char) ∉ s → ('/' : Char) ∉ s → bufferAfter s = s) :=
  ⟨bufferAfter_length s, fun h1 h2 => bufferAfter_no_sep s h1 h2⟩

/-- Witness for the amended C6 at "12" (no separators). -/
theorem C6_mutation_bounded_witness :
    (bufferAfter ("12".data)).length = "12".data.length ∧
    bufferAfter ("12".data) = "12".data :=
  ⟨(C6_mutation_bounded ("12".data)).1,
   (C6_mutation_bounded ("12".data)).2 (by decide) (by decide)⟩

end Itimer

namespace TimerModel

/-!
Modelled from the spec: the Timer Registry, Overrun Accountant and
Notification Channel of sections 3 to 4.5.  The repository's sources under
src/ only call the POSIX timer API (timer_create, timer_settime,
timer_getoverrun); the registry state, expiration counting and coalesced
delivery they rely on live in the OS and are therefore reconstructed here
faithfully from the spec's words.
-/

/-- Modelled from the spec: `ClockSource` (section 3). -/
inductive ClockSource
  | wallClock
  | monotonic
  | processCpuTime
  | threadCpuTime
deriving DecidableEq, Repr

/-- Modelled from the spec: `TimerSpec` (section 3), an initial delay and
an interval, each seconds plus nanoseconds. -/
structure TimerSpecM where
  initSec : Nat
  initNsec : Nat
  intSec : Nat
  intNsec : Nat
deriving DecidableEq, Repr

/-- The all-zero schedule, reported by `arm` when a timer has never been
armed. -/
def zeroSpec : TimerSpecM := ⟨0, 0, 0, 0⟩

/-- A zero interval means one-shot (section 3). -/
def TimerSpecM.oneShot (s : TimerSpecM) : Bool :=
  s.intSec == 0 && s.intNsec == 0

/-- Modelled from the spec: `Payload` (section 3), an integer or an opaque
caller-owned reference. -/
inductive PayloadM
  | intVal (v : Int)
  | refVal (h : Nat)
deriving DecidableEq, Repr

/-- Modelled from the spec: `TimerState` (sections 3 and 4.3).  `Expired`
is transient in the spec's state machine; it is represented here by the
`pending` flag of `TimerAut`. -/
inductive TimerState
  | created
  | armed
  | disarmed
  | deleted
deriving DecidableEq, Repr

/-- Modelled from the spec: `NotificationEvent` (section 3). -/
structure NotificationEvent where
  handle : Nat
  payload : PayloadM
  overrun_count : Nat
deriving DecidableEq, Repr

/-- Modelled from the spec: the per-timer view used by the Overrun
Accountant and Notification Channel (sections 4.4 and 4.5): an armed
timer with a pending (delivered-but-unconsumed) notification and its
overrun counter. -/
structure TimerAut where
  handle : Nat
  payload : PayloadM
  spec : TimerSpecM
  state : TimerState
  pending : Bool
  overrun : Nat
deriving DecidableEq, Repr

/-- Modelled from the spec: an expiration boundary is reached (sections
4.3 to 4.5).  With no notification pending the timer becomes
pending-delivery; a further boundary while the previous notification is
unconsumed increments the overrun counter for a periodic timer, and a
one-shot timer has no further boundary. -/
def expireBoundary (t : TimerAut) : TimerAut :=
  match t.state with
  | .armed =>
      if t.pending then
        if t.spec.oneShot then t
        else { t with overrun := t.overrun + 1 }
      else { t with pending := true }
  | _ => t

/-- Iterated expiration boundaries. -/
def expireN : Nat → TimerAut → TimerAut
  | 0, t => t
  | k + 1, t => expireBoundary (expireN k t)

/-- Modelled from the spec: consuming the pending notification (sections
4.4 and 4.5): at most one pending event per timer is delivered, carrying
the overrun count, which is reset atomically with delivery; a one-shot
timer settles in `Disarmed`. -/
def consume (t : TimerAut) : Option NotificationEvent × TimerAut :=
  if t.pending then
    (some ⟨t.handle, t.payload, t.overrun⟩,
     { t with pending := false, overrun := 0,
              state := if t.spec.oneShot then .disarmed else t.state })
  else (none, t)

theorem expireBoundary_not_armed (t : TimerAut) (h : t.state ≠ .armed) :
    expireBoundary t = t := by
  unfold expireBoundary
  cases hs : t.state with
  | armed => exact absurd hs h
  | created => rfl
  | disarmed => rfl
  | deleted => rfl

theorem expireN_not_armed (t : TimerAut) (h : t.state ≠ .armed) :
    ∀ k, expireN k t = t := by
  intro k
  induction k with
  | zero => rfl
  | succ k ih => rw [expireN, ih, expireBoundary_not_armed t h]

/-- After `k + 1` boundaries, an armed periodic timer with nothing pending
has one pending notification and `k` extra expirations recorded. -/
theorem expireN_armed_periodic (t : TimerAut) (hst : t.state = .armed)
    (hper : t.spec.oneShot = false) (hp : t.pending = false) :
    ∀ k, expireN (k + 1) t = { t with pending := true, overrun := t.overrun + k } := by
  intro k
  induction k with
  | zero =>
      show expireBoundary (expireN 0 t) = _
      simp [expireN, expireBoundary, hst, hp]
  | succ k ih =>
      show expireBoundary (expireN (k + 1) t) = _
      rw [ih]
      simp [expireBoundary, hst, hper]
      omega

/-- C2: when N expiration boundaries of an armed periodic timer pass
before the pending notification is consumed, the next consumption delivers
exactly one coalesced event whose overrun count is N - 1, and no further
event is pending afterwards. -/
theorem C2_overrun_coalesced (t : TimerAut) (N : Nat)
    (hst : t.state = TimerState.armed) (hper : t.spec.oneShot = false)
    (hp : t.pending = false) (ho : t.overrun = 0) (hN : 1 ≤ N) :
    (consume (expireN N t)).1 = some ⟨t.handle, t.payload, N - 1⟩ ∧
    (consume (consume (expireN N t)).2).1 = none := by
  obtain ⟨k, rfl⟩ : ∃ k, N = k + 1 := ⟨N - 1, by omega⟩
  rw [expireN_armed_periodic t hst hper hp k]
  constructor
  · simp [consume, ho]
  · simp [consume]

/-- Witness for C2 with a 2-second periodic timer missing 4 boundaries:
the single delivered event reports 3 overruns. -/
theorem C2_overrun_coalesced_witness :
    (consume (expireN 4 ⟨1, PayloadM.intVal 12512, ⟨5, 0, 2, 0⟩,
        TimerState.armed, false, 0⟩)).1 =
      some ⟨1, PayloadM.intVal 12512, 3⟩ ∧
    (consume (consume (expireN 4 ⟨1, PayloadM.intVal 12512, ⟨5, 0, 2, 0⟩,
        TimerState.armed, false, 0⟩)).2).1 = none :=
  C2_overrun_coalesced ⟨1, PayloadM.intVal 12512, ⟨5, 0, 2, 0⟩,
      TimerState.armed, false, 0⟩ 4
    rfl rfl rfl rfl (by decide)

/-- C3: an armed one-shot timer delivers exactly one event with overrun
count 0, settles in `Disarmed`, and never fires again: further boundaries
leave it unchanged and no further consumption yields an event. -/
theorem C3_one_shot (t : TimerAut) (hst : t.state = TimerState.armed)
    (hone : t.spec.oneShot = true) (hp : t.pending = false)
    (ho : t.overrun = 0) :
    (consume (expireBoundary t)).1 = some ⟨t.handle, t.payload, 0⟩ ∧
    ((consume (expireBoundary t)).2).state = TimerState.disarmed ∧
    (∀ k, expireN k (consume (expireBoundary t)).2 =
      (consume (expireBoundary t)).2) ∧
    (consume (consume (expireBoundary t)).2).1 = none := by
  have hb : expireBoundary t = { t with pending := true } := by
    simp [expireBoundary, hst, hp]
  rw [hb]
  have hcons : consume { t with pending := true } =
      (some ⟨t.handle, t.payload, t.overrun⟩,
       { t with pending := false, overrun := 0, state := TimerState.disarmed }) := by
    simp [consume, hone]
  rw [hcons]
  refine ⟨by simp [ho], rfl, ?_, by simp [consume]⟩
  intro k
  exact expireN_not_armed _ (by simp) k

/-- Witness for C3 with a 2-second one-shot timer. -/
theorem C3_one_shot_witness :
    (consume (expireBoundary ⟨2, PayloadM.intVal 0, ⟨2, 0, 0, 0⟩,
        TimerState.armed, false, 0⟩)).1 =
      some ⟨2, PayloadM.intVal 0, 0⟩ ∧
    ((consume (expireBoundary ⟨2, PayloadM.intVal 0, ⟨2, 0, 0, 0⟩,
        TimerState.armed, false, 0⟩)).2).state = TimerState.disarmed :=
  ⟨(C3_one_shot ⟨2, PayloadM.intVal 0, ⟨2, 0, 0, 0⟩,
      TimerState.armed, false, 0⟩ rfl rfl rfl rfl).1,
   (C3_one_shot ⟨2, PayloadM.intVal 0, ⟨2, 0, 0, 0⟩,
      TimerState.armed, false, 0⟩ rfl rfl rfl rfl).2.1⟩

/-! ## The Timer Registry (modelled from sections 4.3 and 5) -/

/-- Modelled from the spec: a `Timer` record as owned by the registry
(section 3). -/
structure Timer where
  clock : ClockSource
  payload : PayloadM
  spec : TimerSpecM
  state : TimerState
deriving DecidableEq, Repr

/-- Modelled from the spec: the registry error taxonomy relevant to its
operations (section 7). -/
inductive TimerErr
  | notFound
  | resourceExhausted
deriving DecidableEq, Repr

/-- The registry's handle table, keyed by `TimerHandle`. -/
def HandleTable := List (Nat × Timer)

/-- Look a handle up in the handle table. -/
def lookupL (l : List (Nat × Timer)) (h : Nat) : Option Timer :=
  match l with
  | [] => none
  | p :: rest => if p.1 = h then some p.2 else lookupL rest h

/-- Replace the timer stored under a handle. -/
def updateL (l : List (Nat × Timer)) (h : Nat) (t : Timer) :
    List (Nat × Timer) :=
  match l with
  | [] => []
  | p :: rest => if p.1 = h then (p.1, t) :: rest else p :: updateL rest h t

/-- Remove a handle from the table. -/
def removeL (l : List (Nat × Timer)) (h : Nat) : List (Nat × Timer) :=
  match l with
  | [] => []
  | p :: rest => if p.1 = h then removeL rest h else p :: removeL rest h

/-- Modelled from the spec: the Timer Registry state (sections 4.3, 5 and
6): the handle table, the next fresh handle, and the process-wide count of
free pending-notification slots. -/
structure Registry where
  timers : List (Nat × Timer)
  nextHandle : Nat
  slotsFree : Nat
deriving DecidableEq, Repr

/-- Modelled from the spec: `create` (section 4.3): reserve a notification
slot or fail with `ResourceExhausted`; on success a fresh handle maps to a
`Created`, zero-spec timer. -/
def create (r : Registry) (c : ClockSource) (p : PayloadM) :
    Except TimerErr (Nat × Registry) :=
  if r.slotsFree = 0 then .error .resourceExhausted
  else .ok (r.nextHandle,
    { timers := (r.nextHandle, ⟨c, p, zeroSpec, .created⟩) :: r.timers,
      nextHandle := r.nextHandle + 1,
      slotsFree := r.slotsFree - 1 })

/-- Modelled from the spec: `arm` (section 4.3): install the new spec,
move the timer to `Armed`, and return the schedule previously in effect;
an unknown handle fails with `NotFound`. -/
def arm (r : Registry) (h : Nat) (s : TimerSpecM) :
    Except TimerErr (TimerSpecM × Registry) :=
  match lookupL r.timers h with
  | none => .error .notFound
  | some t => .ok (t.spec,
      { r with timers := updateL r.timers h { t with spec := s, state := .armed } })

/-- Modelled from the spec: `query` (section 4.3): report the current
schedule without mutating state; an unknown handle fails with
`NotFound`. -/
def query (r : Registry) (h : Nat) : Except TimerErr TimerSpecM :=
  match lookupL r.timers h with
  | none => .error .notFound
  | some t => .ok t.spec

/-- Modelled from the spec: `delete` (section 4.3): release the reserved
notification slot and invalidate the handle; an unknown handle fails with
`NotFound`. -/
def delete (r : Registry) (h : Nat) : Except TimerErr Registry :=
  match lookupL r.timers h with
  | none => .error .notFound
  | some _ => .ok { r with timers := removeL r.timers h,
                           slotsFree := r.slotsFree + 1 }

theorem lookupL_updateL (l : List (Nat × Timer)) (h : Nat) (t t' : Timer)
    (hl : lookupL l h = some t) : lookupL (updateL l h t') h = some t' := by
  induction l with
  | nil => simp [lookupL] at hl
  | cons p rest ih =>
      by_cases hp : p.1 = h
      · simp [lookupL, updateL, hp]
      · simp only [lookupL, updateL, if_neg hp] at hl ⊢
        exact ih hl

theorem lookupL_removeL (l : List (Nat × Timer)) (h : Nat) :
    lookupL (removeL l h) h = none := by
  induction l with
  | nil => rfl
  | cons p rest ih =>
      by_cases hp : p.1 = h
      · simp only [removeL, if_pos hp]
        exact ih
      · simp only [removeL, if_neg hp, lookupL, if_neg hp]
        exact ih

/-- C4: on a live handle, `arm` installs the spec, moves the timer to
`Armed` and returns the schedule previously in effect, so a second `arm`
returns exactly the spec the first call installed; and a timer never armed
since `create` yields the all-zero schedule on its first `arm`. -/
theorem C4_arm_returns_previous (r : Registry) (h : Nat) (t : Timer)
    (s1 s2 : TimerSpecM) (c : ClockSource) (p : PayloadM)
    (hl : lookupL r.timers h = some t) :
    (∃ r1 r2,
      arm r h s1 = .ok (t.spec, r1) ∧
      lookupL r1.timers h = some { t with spec := s1, state := .armed } ∧
      arm r1 h s2 = .ok (s1, r2) ∧
      lookupL r2.timers h = some { t with spec := s2, state := .armed }) ∧
    (r.slotsFree ≠ 0 →
      ∃ r3, create r c p = .ok (r.nextHandle, r3) ∧
        ∃ r4, arm r3 r.nextHandle s1 = .ok (zeroSpec, r4)) := by
  constructor
  · refine ⟨{ r with timers := updateL r.timers h { t with spec := s1, state := .armed } },
      { r with timers := (updateL (updateL r.timers h { t with spec := s1, state := .armed }) h { t with spec := s2, state := .armed }) }, ?_, ?_, ?_, ?_⟩
    · simp [arm, hl]
    · exact lookupL_updateL r.timers h t _ hl
    · simp [arm, lookupL_updateL r.timers h t _ hl]
    · exact lookupL_updateL _ h _ _ (lookupL_updateL r.timers h t _ hl)
  · intro hf
    refine ⟨{ timers := (r.nextHandle, ⟨c, p, zeroSpec, .created⟩) :: r.timers,
              nextHandle := r.nextHandle + 1, slotsFree := r.slotsFree - 1 }, ?_, ?_⟩
    · simp [create, hf]
    · refine ⟨{ timers := (r.nextHandle, ⟨c, p, s1, .armed⟩) :: r.timers,
                nextHandle := r.nextHandle + 1, slotsFree := r.slotsFree - 1 }, ?_⟩
      simp [arm, lookupL, updateL]

/-- Witness for C4 on a one-element registry. -/
theorem C4_arm_returns_previous_witness :
    lookupL (Registry.mk
        [(0, ⟨ClockSource.wallClock, PayloadM.intVal 3, zeroSpec,
              TimerState.created⟩)] 1 2).timers 0 =
      some ⟨ClockSource.wallClock, PayloadM.intVal 3, zeroSpec,
            TimerState.created⟩ ∧
    ∃ r1 r2,
      arm (Registry.mk
        [(0, ⟨ClockSource.wallClock, PayloadM.intVal 3, zeroSpec,
              TimerState.created⟩)] 1 2) 0 ⟨5, 0, 2, 0⟩ =
        .ok (zeroSpec, r1) ∧
      lookupL r1.timers 0 =
        some ⟨ClockSource.wallClock, PayloadM.intVal 3, ⟨5, 0, 2, 0⟩,
              TimerState.armed⟩ ∧
      arm r1 0 ⟨7, 0, 1, 0⟩ = .ok (⟨5, 0, 2, 0⟩, r2) ∧
      lookupL r2.timers 0 =
        some ⟨ClockSource.wallClock, PayloadM.intVal 3, ⟨7, 0, 1, 0⟩,
              TimerState.armed⟩ :=
  ⟨rfl,
   (C4_arm_returns_previous (Registry.mk
        [(0, ⟨ClockSource.wallClock, PayloadM.intVal 3, zeroSpec,
              TimerState.created⟩)] 1 2) 0
      ⟨ClockSource.wallClock, PayloadM.intVal 3, zeroSpec, TimerState.created⟩
      ⟨5, 0, 2, 0⟩ ⟨7, 0, 1, 0⟩ ClockSource.wallClock (PayloadM.intVal 3)
      rfl).1⟩

/-- C8: with a free slot, `create` immediately followed by `delete` of the
returned handle restores the slot pool count, and afterwards every
operation on that handle fails with `NotFound`. -/
theorem C8_create_delete_roundtrip (r : Registry) (c : ClockSource)
    (p : PayloadM) (s : TimerSpecM) (hf : r.slotsFree ≠ 0) :
    ∃ r1 r2,
      create r c p = .ok (r.nextHandle, r1) ∧
      r1.slotsFree = r.slotsFree - 1 ∧
      delete r1 r.nextHandle = .ok r2 ∧
      r2.slotsFree = r.slotsFree ∧
      lookupL r2.timers r.nextHandle = none ∧
      arm r2 r.nextHandle s = .error .notFound ∧
      query r2 r.nextHandle = .error .notFound ∧
      delete r2 r.nextHandle = .error .notFound := by
  refine ⟨{ timers := (r.nextHandle, ⟨c, p, zeroSpec, .created⟩) :: r.timers,
            nextHandle := r.nextHandle + 1, slotsFree := r.slotsFree - 1 },
          { timers := removeL ((r.nextHandle, ⟨c, p, zeroSpec, .created⟩) :: r.timers)
              r.nextHandle,
            nextHandle := r.nextHandle + 1, slotsFree := r.slotsFree - 1 + 1 },
          ?_, rfl, ?_, ?_, ?_, ?_, ?_, ?_⟩
  · simp [create, hf]
  · simp [delete, lookupL]
  · simp only []
    omega
  · exact lookupL_removeL _ _
  · simp [arm, lookupL_removeL]
  · simp [query, lookupL_removeL]
  · simp [delete, lookupL_removeL]

/-- Witness for C8 on a one-slot empty registry. -/
theorem C8_create_delete_roundtrip_witness :
    ((Registry.mk [] 0 1).slotsFree ≠ 0) ∧
    ∃ r1 r2,
      create (Registry.mk [] 0 1) ClockSource.monotonic (PayloadM.intVal 9) =
        .ok (0, r1) ∧
      r1.slotsFree = 0 ∧
      delete r1 0 = .ok r2 ∧
      r2.slotsFree = 1 ∧
      lookupL r2.timers 0 = none ∧
      arm r2 0 zeroSpec = .error .notFound ∧
      query r2 0 = .error .notFound ∧
      delete r2 0 = .error .notFound :=
  ⟨by decide,
   C8_create_delete_roundtrip (Registry.mk [] 0 1) ClockSource.monotonic
     (PayloadM.intVal 9) zeroSpec (by decide)⟩

end TimerModel
